import Mathlib

/-!
# `strlcat.h` (MacPorts 2.3.3, `src/pextlib1.0`)

The header is five lines of preprocessor input after its `$Id$` comment:

    #ifdef HAVE_STRLCAT
    #include <string.h>
    #else
    size_t strlcat(char *dst, const char *src, size_t size);
    #endif

It is embedded as the list of its lines, `strlcat_h`, and given meaning by
`preprocess`, the conditional-inclusion pass of the C preprocessor restricted
to the directives a header of this shape can hold.  The function `strlcat`
that the header declares has no body among the sources; its contract is
modelled separately at the end of the definitions.
-/

namespace Strlcat

/-! ## C declarations -/

/-- The C types that occur in the header. -/
inductive CType where
  | size_t
  | char
  | const (t : CType)
  | ptr (t : CType)
  deriving DecidableEq, Repr

/-- One parameter of a function declarator: its type and its name. -/
structure Param where
  type : CType
  name : String
  deriving DecidableEq, Repr

/-- An external declaration of a translation unit.  `prototype` is a function
declaration ended by `;`, with no body; `funDef` carries a body; `object`
declares or defines a variable. -/
inductive ExternalDecl where
  | prototype (ret : CType) (name : String) (params : List Param)
  | funDef (ret : CType) (name : String) (params : List Param) (body : String)
  | object (type : CType) (name : String)
  deriving DecidableEq, Repr

/-- The identifier an external declaration introduces. -/
def ExternalDecl.name : ExternalDecl → String
  | .prototype _ n _ => n
  | .funDef _ n _ _ => n
  | .object _ n => n

/-- The parameter types of a function declarator, in order; an object has
none. -/
def ExternalDecl.paramTypes : ExternalDecl → List CType
  | .prototype _ _ ps => ps.map Param.type
  | .funDef _ _ ps _ => ps.map Param.type
  | .object _ _ => []

/-- The return type of a function declarator; an object has none. -/
def ExternalDecl.retType : ExternalDecl → Option CType
  | .prototype r _ _ => some r
  | .funDef r _ _ _ => some r
  | .object _ _ => none

/-- A pointer through which the pointee may be written: `T *` with `T` not
`const`-qualified. -/
def CType.isWritablePtr : CType → Bool
  | .ptr (.const _) => false
  | .ptr _ => true
  | _ => false

/-- A pointer through which the pointee may only be read: `const T *`. -/
def CType.isReadOnlyPtr : CType → Bool
  | .ptr (.const _) => true
  | _ => false

/-! ## Preprocessor input and output -/

/-- A logical line of a header. -/
inductive Line where
  | comment (text : String)
  | ifdef_ (name : String)
  | else_
  | endif
  | include_ (header : String)
  | define (name : String) (body : String)
  | decl (d : ExternalDecl)
  deriving DecidableEq, Repr

/-- What an active line hands to the including translation unit. -/
inductive Item where
  | include_ (header : String)
  | define (name : String) (body : String)
  | decl (d : ExternalDecl)
  deriving DecidableEq, Repr

/-- The object-like definitions in force: name and replacement text, the most
recent first.  `-DHAVE_STRLCAT` gives `("HAVE_STRLCAT", "1")`,
`-DHAVE_STRLCAT=0` gives `("HAVE_STRLCAT", "0")`, `-DHAVE_STRLCAT=` gives
`("HAVE_STRLCAT", "")`. -/
abbrev MacroEnv := List (String × String)

/-- The test of `#ifdef`: the name has a definition; its replacement text is
not looked at. -/
def isDefined (env : MacroEnv) (name : String) : Bool :=
  (env.lookup name).isSome

/-- One open conditional: whether its `#ifdef` test held, and whether its
`#else` has been passed. -/
structure Cond where
  test : Bool
  inElse : Bool
  deriving DecidableEq, Repr

/-- The group of an open conditional that is being read is the selected one. -/
def Cond.selected (c : Cond) : Bool :=
  if c.inElse then !c.test else c.test

/-- A line is active when every enclosing conditional selects it. -/
def active (stack : List Cond) : Bool :=
  stack.all Cond.selected

/-- Conditional inclusion.  Reads the lines in order with the stack of open
conditionals; yields the items of the active lines, or `none` for a header
that is ill-formed (`#else` or `#endif` without `#ifdef`, a second `#else`, a
conditional left open at the end). -/
def preprocess : MacroEnv → List Cond → List Line → Option (List Item)
  | _, [], [] => some []
  | _, _ :: _, [] => none
  | env, stack, .comment _ :: rest => preprocess env stack rest
  | env, stack, .ifdef_ n :: rest =>
      preprocess env (⟨isDefined env n, false⟩ :: stack) rest
  | _, [], .else_ :: _ => none
  | env, c :: stack, .else_ :: rest =>
      if c.inElse then none else preprocess env (⟨c.test, true⟩ :: stack) rest
  | _, [], .endif :: _ => none
  | env, _ :: stack, .endif :: rest => preprocess env stack rest
  | env, stack, .include_ h :: rest =>
      if active stack then (preprocess env stack rest).map (Item.include_ h :: ·)
      else preprocess env stack rest
  | env, stack, .define n b :: rest =>
      if active stack then
        (preprocess ((n, b) :: env) stack rest).map (Item.define n b :: ·)
      else preprocess env stack rest
  | env, stack, .decl d :: rest =>
      if active stack then (preprocess env stack rest).map (Item.decl d :: ·)
      else preprocess env stack rest

/-! ## The header -/

/-- Line 5 of the header:
`size_t strlcat(char *dst, const char *src, size_t size);` -/
def strlcat_decl : ExternalDecl :=
  .prototype .size_t "strlcat"
    [⟨.ptr .char, "dst"⟩, ⟨.ptr (.const .char), "src"⟩, ⟨.size_t, "size"⟩]

/-- The header `strlcat.h`, line by line. -/
def strlcat_h : List Line :=
  [ .comment "$Id: strlcat.h 108069 2013-07-12 05:28:37Z jmr@macports.org $",
    .ifdef_ "HAVE_STRLCAT",
    .include_ "string.h",
    .else_,
    .decl strlcat_decl,
    .endif ]

/-- Branch A: the line `#include <string.h>`. -/
def branchA : Item := .include_ "string.h"

/-- Branch B: the declaration of `strlcat`. -/
def branchB : Item := .decl strlcat_decl

/-- The header as a translation unit sees it under the definitions `env`. -/
def strlcat_h_output (env : MacroEnv) : Option (List Item) :=
  preprocess env [] strlcat_h

/-! ## Classifying what a header contributes -/

/-- The item is a function declaration without a body. -/
def Item.isPrototype : Item → Bool
  | .decl (.prototype _ _ _) => true
  | _ => false

/-- The item defines something: a function with a body, an object, or a
preprocessor name. -/
def Item.isDefinition : Item → Bool
  | .decl (.funDef _ _ _ _) => true
  | .decl (.object _ _) => true
  | .define _ _ => true
  | _ => false

/-- The external declarations the item itself carries (an include carries
none of its own). -/
def Item.ownDecls : Item → List ExternalDecl
  | .decl d => [d]
  | _ => []

/-- The external declarations of the translation unit once its includes are
resolved against the platform's headers. -/
def expand (platform : String → List ExternalDecl) : List Item → List ExternalDecl
  | [] => []
  | .include_ h :: rest => platform h ++ expand platform rest
  | .define _ _ :: rest => expand platform rest
  | .decl d :: rest => d :: expand platform rest

/-- The declarations and definitions of the identifier `name` among `ds`. -/
def declsOf (name : String) (ds : List ExternalDecl) : List ExternalDecl :=
  ds.filter (fun d => d.name == name)

/-! ## The declared function -/

/-- The string a buffer holds: its bytes before the first null byte. -/
def cstring (buf : List Nat) : List Nat :=
  buf.takeWhile (fun b => b != 0)

/-- The length of the string a buffer holds, as C's `strlen` counts it. -/
def strlen (buf : List Nat) : Nat :=
  (cstring buf).length

/-- Writing `bytes` from the start of `buf`: the bytes of `buf` after them
stay as they were. -/
def store (buf bytes : List Nat) : List Nat :=
  bytes ++ buf.drop bytes.length

/-- Modelled from the spec: the body of `strlcat`, which is missing from the
sources (the header holds its prototype only, and the function comes from the
platform's library or from a fallback compiled elsewhere).  Following the
spec's contract: the value returned is the length the concatenation of the
two strings would have without truncation; with a capacity of 0 nothing is
written; otherwise the destination receives as many bytes of the
concatenation as fit in `size - 1` bytes, followed by a null terminator, and
no byte at index `size` or later is touched.  The pair returned is the
destination buffer after the call and the returned length. -/
def strlcat (dst src : List Nat) (size : Nat) : List Nat × Nat :=
  let whole := cstring dst ++ cstring src
  if size = 0 then (dst, whole.length)
  else (store dst (whole.take (size - 1) ++ [0]), whole.length)

/-! ## Lemmas on the preprocessor -/

theorem strlcat_h_output_eq (env : MacroEnv) :
    strlcat_h_output env =
      some [if isDefined env "HAVE_STRLCAT" then branchA else branchB] := by
  cases h : isDefined env "HAVE_STRLCAT" <;>
    simp [strlcat_h_output, strlcat_h, preprocess, active, Cond.selected, h,
      branchA, branchB]

theorem branchA_ne_branchB : branchA ≠ branchB := by
  decide

theorem isDefined_iff (env : MacroEnv) (name : String) :
    isDefined env name = true ↔ ∃ body, env.lookup name = some body := by
  unfold isDefined
  cases env.lookup name <;> simp

theorem isDefined_false_iff (env : MacroEnv) (name : String) :
    isDefined env name = false ↔ env.lookup name = none := by
  unfold isDefined
  cases env.lookup name <;> simp

/-! ## Lemmas on strings in buffers -/

theorem cstring_append_null (d tail : List Nat) (hd : ∀ b ∈ d, b ≠ 0) :
    cstring (d ++ 0 :: tail) = d := by
  induction d with
  | nil => simp [cstring]
  | cons a d ih =>
    have ha : a ≠ 0 := hd a (by simp)
    have ih2 := ih (fun b hb => hd b (by simp [hb]))
    simp only [cstring] at ih2 ⊢
    simp [List.takeWhile_cons, ha, ih2]

theorem strlen_append_null (d tail : List Nat) (hd : ∀ b ∈ d, b ≠ 0) :
    strlen (d ++ 0 :: tail) = d.length := by
  simp [strlen, cstring_append_null d tail hd]

theorem cstring_store_null (buf pre : List Nat) (hpre : ∀ b ∈ pre, b ≠ 0) :
    cstring (store buf (pre ++ [0])) = pre := by
  have := cstring_append_null pre (buf.drop (pre ++ [0]).length) hpre
  simpa [store] using this

theorem store_getElem?_of_le (buf bytes : List Nat) (i : Nat)
    (h : bytes.length ≤ i) : (store buf bytes)[i]? = buf[i]? := by
  unfold store
  rw [List.getElem?_append_right h, List.getElem?_drop]
  congr 1
  omega

theorem strlcat_store_length_le (whole : List Nat) (n : Nat) (hn : n ≠ 0) :
    (whole.take (n - 1) ++ [0]).length ≤ n := by
  simp only [List.length_append, List.length_take, List.length_singleton]
  omega

theorem take_no_null (l : List Nat) (k : Nat) (hl : ∀ b ∈ l, b ≠ 0) :
    ∀ b ∈ l.take k, b ≠ 0 :=
  fun b hb => hl b (List.mem_of_mem_take hb)

theorem append_no_null (d s : List Nat) (hd : ∀ b ∈ d, b ≠ 0)
    (hs : ∀ b ∈ s, b ≠ 0) : ∀ b ∈ d ++ s, b ≠ 0 := by
  intro b hb
  rcases List.mem_append.mp hb with h | h
  · exact hd b h
  · exact hs b h

/-- On buffers holding the strings `d` and `s`, the model of `strlcat` at a
non-zero capacity `n` stores the first `n - 1` bytes of `d ++ s` and a null,
and returns the length of `d ++ s`. -/
theorem strlcat_eq_of_pos (d s dtail stail : List Nat) (n : Nat)
    (hd : ∀ b ∈ d, b ≠ 0) (hs : ∀ b ∈ s, b ≠ 0) (hn : n ≠ 0) :
    strlcat (d ++ 0 :: dtail) (s ++ 0 :: stail) n =
      (store (d ++ 0 :: dtail) ((d ++ s).take (n - 1) ++ [0]),
        d.length + s.length) := by
  simp [strlcat, hn, cstring_append_null d dtail hd, cstring_append_null s stail hs]

/-! ## The header: branch selection and what each branch contributes -/

/-- C1: whatever the state of `HAVE_STRLCAT`, the preprocessed header is
exactly one of the two branches, the `#include <string.h>` line or the
declaration of `strlcat`: never both of them and never neither. -/
theorem C1_exactly_one_branch (env : MacroEnv) :
    ∃ items, strlcat_h_output env = some items ∧
      (items = [branchA] ∨ items = [branchB]) ∧
      ¬ (branchA ∈ items ∧ branchB ∈ items) ∧
      (branchA ∈ items ∨ branchB ∈ items) ∧
      (items = [branchA] ↔ isDefined env "HAVE_STRLCAT" = true) ∧
      (items = [branchB] ↔ isDefined env "HAVE_STRLCAT" = false) := by
  refine ⟨_, strlcat_h_output_eq env, ?_⟩
  have hne := branchA_ne_branchB
  cases isDefined env "HAVE_STRLCAT" <;> simp [hne, hne.symm]

/-- C2: with `HAVE_STRLCAT` not defined the header hands over one item, the
prototype of `strlcat`: one function declaration of that name, and no
definition (no function body, no object, no preprocessor name), no include
and no other declaration, whatever the platform's headers hold. -/
theorem C2_branchB_one_declaration (env : MacroEnv)
    (h : isDefined env "HAVE_STRLCAT" = false) :
    ∃ items, strlcat_h_output env = some items ∧
      items = [Item.decl strlcat_decl] ∧
      (items.filter Item.isPrototype).length = 1 ∧
      (∀ it ∈ items, ∃ ret params,
        it = Item.decl (ExternalDecl.prototype ret "strlcat" params)) ∧
      (∀ it ∈ items, it.isDefinition = false) ∧
      (∀ platform, expand platform items = [strlcat_decl]) := by
  refine ⟨_, strlcat_h_output_eq env, ?_⟩
  simp [h, branchB, strlcat_decl, Item.isPrototype, Item.isDefinition, expand]

/-- Witness for C2: no definition of the flag at all. -/
theorem C2_branchB_one_declaration_witness :
    isDefined [] "HAVE_STRLCAT" = false ∧
    ∃ items, strlcat_h_output [] = some items ∧
      items = [Item.decl strlcat_decl] ∧
      (items.filter Item.isPrototype).length = 1 ∧
      (∀ it ∈ items, ∃ ret params,
        it = Item.decl (ExternalDecl.prototype ret "strlcat" params)) ∧
      (∀ it ∈ items, it.isDefinition = false) ∧
      (∀ platform, expand platform items = [strlcat_decl]) :=
  ⟨by decide, C2_branchB_one_declaration [] (by decide)⟩

/-- C3: with `HAVE_STRLCAT` defined the header hands over the inclusion of
`<string.h>` and nothing else: it carries no declaration or definition of its
own, so the declarations of `strlcat` in the translation unit are those of the
platform's `<string.h>`, with none added. -/
theorem C3_branchA_only_include (env : MacroEnv)
    (h : isDefined env "HAVE_STRLCAT" = true) :
    ∃ items, strlcat_h_output env = some items ∧
      items = [Item.include_ "string.h"] ∧
      (∀ it ∈ items, it.ownDecls = []) ∧
      (∀ it ∈ items, it.isPrototype = false ∧ it.isDefinition = false) ∧
      (∀ platform, expand platform items = platform "string.h") ∧
      (∀ platform, declsOf "strlcat" (expand platform items) =
        declsOf "strlcat" (platform "string.h")) := by
  refine ⟨_, strlcat_h_output_eq env, ?_⟩
  simp [h, branchA, Item.ownDecls, Item.isPrototype, Item.isDefinition, expand]

/-- Witness for C3: the flag as `-DHAVE_STRLCAT` defines it. -/
theorem C3_branchA_only_include_witness :
    isDefined [("HAVE_STRLCAT", "1")] "HAVE_STRLCAT" = true ∧
    ∃ items, strlcat_h_output [("HAVE_STRLCAT", "1")] = some items ∧
      items = [Item.include_ "string.h"] ∧
      (∀ it ∈ items, it.ownDecls = []) ∧
      (∀ it ∈ items, it.isPrototype = false ∧ it.isDefinition = false) ∧
      (∀ platform, expand platform items = platform "string.h") ∧
      (∀ platform, declsOf "strlcat" (expand platform items) =
        declsOf "strlcat" (platform "string.h")) :=
  ⟨by decide, C3_branchA_only_include [("HAVE_STRLCAT", "1")] (by decide)⟩

/-- C4: the declaration of `strlcat` in the fallback branch has three
parameters, in this order: `char *` (a pointer the function may write
through), `const char *` (a read-only pointer) and `size_t`; it returns
`size_t`. -/
theorem C4_strlcat_signature :
    strlcat_h_output [] = some [Item.decl strlcat_decl] ∧
    strlcat_decl.name = "strlcat" ∧
    strlcat_decl.paramTypes =
      [CType.ptr CType.char, CType.ptr (CType.const CType.char), CType.size_t] ∧
    strlcat_decl.paramTypes.length = 3 ∧
    (strlcat_decl.paramTypes.map CType.isWritablePtr = [true, false, false]) ∧
    (strlcat_decl.paramTypes.map CType.isReadOnlyPtr = [false, true, false]) ∧
    strlcat_decl.retType = some CType.size_t := by
  decide

/-- C9: the branch taken depends on whether `HAVE_STRLCAT` is defined and not
on its replacement text: with any definition put in front (also one expanding
to `0` or to nothing) the include branch is taken, and the declaration of
`strlcat` is taken if and only if the name has no definition at all. -/
theorem C9_selection_ignores_value (env : MacroEnv) :
    (∀ body, strlcat_h_output (("HAVE_STRLCAT", body) :: env) = some [branchA]) ∧
    strlcat_h_output (("HAVE_STRLCAT", "0") :: env) = some [branchA] ∧
    strlcat_h_output (("HAVE_STRLCAT", "") :: env) = some [branchA] ∧
    (strlcat_h_output env = some [branchA] ↔
      ∃ body, env.lookup "HAVE_STRLCAT" = some body) ∧
    (strlcat_h_output env = some [branchB] ↔
      env.lookup "HAVE_STRLCAT" = none) := by
  have hcons : ∀ body,
      strlcat_h_output (("HAVE_STRLCAT", body) :: env) = some [branchA] := by
    intro body
    rw [strlcat_h_output_eq]
    simp [isDefined, List.lookup]
  refine ⟨hcons, hcons _, hcons _, ?_, ?_⟩
  · rw [strlcat_h_output_eq, ← isDefined_iff]
    have hne := branchA_ne_branchB
    cases isDefined env "HAVE_STRLCAT" <;> simp [hne.symm]
  · rw [strlcat_h_output_eq, ← isDefined_false_iff]
    have hne := branchA_ne_branchB
    cases isDefined env "HAVE_STRLCAT" <;> simp [hne]

/-! ## The contract of the declared function -/

/-- C5: when the two strings and a terminator fit in the capacity
(`len d + len s + 1 ≤ n`), `strlcat` returns `len d + len s` and the
destination holds the bytes of `d`, then those of `s`, then a null byte; the
bytes of the buffer after them are as before. -/
theorem C5_fits_concatenates (d s dtail stail : List Nat) (n : Nat)
    (hd : ∀ b ∈ d, b ≠ 0) (hs : ∀ b ∈ s, b ≠ 0)
    (hfit : d.length + s.length + 1 ≤ n) :
    (strlcat (d ++ 0 :: dtail) (s ++ 0 :: stail) n).2 = d.length + s.length ∧
    (strlcat (d ++ 0 :: dtail) (s ++ 0 :: stail) n).1 =
      d ++ s ++ 0 :: (d ++ 0 :: dtail).drop (d.length + s.length + 1) ∧
    cstring (strlcat (d ++ 0 :: dtail) (s ++ 0 :: stail) n).1 = d ++ s := by
  have hn : n ≠ 0 := by omega
  have htake : (d ++ s).take (n - 1) = d ++ s :=
    List.take_of_length_le (by simp only [List.length_append]; omega)
  have hbuf : (strlcat (d ++ 0 :: dtail) (s ++ 0 :: stail) n).1 =
      d ++ s ++ 0 :: (d ++ 0 :: dtail).drop (d.length + s.length + 1) := by
    have hdrop : (d ++ 0 :: dtail).drop (d.length + s.length + 1) =
        dtail.drop s.length := by
      rw [Nat.add_assoc, List.drop_append, List.drop_succ_cons]
    rw [strlcat_eq_of_pos d s dtail stail n hd hs hn, htake, hdrop]
    simp [store]
  refine ⟨?_, hbuf, ?_⟩
  · rw [strlcat_eq_of_pos d s dtail stail n hd hs hn]
  · rw [hbuf]
    exact cstring_append_null (d ++ s) _ (append_no_null d s hd hs)

/-- Witness for C5: "ab" and "cd" in a capacity of 8. -/
theorem C5_fits_concatenates_witness :
    (strlcat [97, 98, 0, 7, 7, 7, 7, 7] [99, 100, 0] 8).2 = 4 ∧
    (strlcat [97, 98, 0, 7, 7, 7, 7, 7] [99, 100, 0] 8).1 =
      [97, 98, 99, 100, 0, 7, 7, 7] ∧
    cstring (strlcat [97, 98, 0, 7, 7, 7, 7, 7] [99, 100, 0] 8).1 =
      [97, 98, 99, 100] :=
  C5_fits_concatenates [97, 98] [99, 100] [7, 7, 7, 7, 7] [] 8
    (by decide) (by decide) (by decide)

/-- C6: when the two strings and a terminator do not fit in a capacity
`n ≥ 1`, `strlcat` leaves a null byte within the first `n` bytes of the
destination (at index `n - 1`), the string held is the prefix of `d ++ s` of
length `n - 1`, and the value returned is `len d + len s`, which is at least
`n`; at every capacity `m ≥ 1` the returned length is at least `m` exactly
when the string held is not the whole of `d ++ s`. -/
theorem C6_truncates_and_reports (d s dtail stail : List Nat) (n : Nat)
    (hd : ∀ b ∈ d, b ≠ 0) (hs : ∀ b ∈ s, b ≠ 0)
    (hn : 1 ≤ n) (hover : d.length + s.length + 1 > n) :
    (strlcat (d ++ 0 :: dtail) (s ++ 0 :: stail) n).2 = d.length + s.length ∧
    n ≤ (strlcat (d ++ 0 :: dtail) (s ++ 0 :: stail) n).2 ∧
    (strlcat (d ++ 0 :: dtail) (s ++ 0 :: stail) n).1[n - 1]? = some 0 ∧
    (∃ i, i < n ∧ (strlcat (d ++ 0 :: dtail) (s ++ 0 :: stail) n).1[i]? = some 0) ∧
    cstring (strlcat (d ++ 0 :: dtail) (s ++ 0 :: stail) n).1 =
      (d ++ s).take (n - 1) ∧
    cstring (strlcat (d ++ 0 :: dtail) (s ++ 0 :: stail) n).1 <+: d ++ s ∧
    cstring (strlcat (d ++ 0 :: dtail) (s ++ 0 :: stail) n).1 ≠ d ++ s ∧
    (∀ m, 1 ≤ m →
      (m ≤ (strlcat (d ++ 0 :: dtail) (s ++ 0 :: stail) m).2 ↔
        cstring (strlcat (d ++ 0 :: dtail) (s ++ 0 :: stail) m).1 ≠ d ++ s)) := by
  have hds := append_no_null d s hd hs
  have hcs : ∀ m, 1 ≤ m →
      cstring (strlcat (d ++ 0 :: dtail) (s ++ 0 :: stail) m).1 =
        (d ++ s).take (m - 1) := by
    intro m hm
    rw [strlcat_eq_of_pos d s dtail stail m hd hs (by omega)]
    exact cstring_store_null _ _ (take_no_null _ _ hds)
  have hiff : ∀ m, 1 ≤ m →
      (m ≤ (strlcat (d ++ 0 :: dtail) (s ++ 0 :: stail) m).2 ↔
        cstring (strlcat (d ++ 0 :: dtail) (s ++ 0 :: stail) m).1 ≠ d ++ s) := by
    intro m hm
    rw [hcs m hm, strlcat_eq_of_pos d s dtail stail m hd hs (by omega)]
    simp only [ne_eq, List.take_eq_self_iff, List.length_append]
    omega
  have hret : (strlcat (d ++ 0 :: dtail) (s ++ 0 :: stail) n).2 =
      d.length + s.length := by
    rw [strlcat_eq_of_pos d s dtail stail n hd hs (by omega)]
  have hlen : ((d ++ s).take (n - 1)).length = n - 1 := by
    simp only [List.length_take, List.length_append]
    omega
  have hnull : (strlcat (d ++ 0 :: dtail) (s ++ 0 :: stail) n).1[n - 1]? = some 0 := by
    rw [strlcat_eq_of_pos d s dtail stail n hd hs (by omega)]
    simp only [store]
    rw [List.getElem?_append_left (by simp only [List.length_append, hlen]; simp),
      List.getElem?_append_right (by omega)]
    simp [hlen]
  refine ⟨hret, by omega, hnull, ⟨n - 1, by omega, hnull⟩, hcs n hn, ?_, ?_, hiff⟩
  · rw [hcs n hn]
    exact List.take_prefix _ _
  · exact (hiff n hn).mp (by omega)

/-- Witness for C6: "ab" and "cd" in a capacity of 4: "abc" is kept, 4 is
returned. -/
theorem C6_truncates_and_reports_witness :
    (strlcat [97, 98, 0, 7, 7, 7] [99, 100, 0] 4).2 = 4 ∧
    (strlcat [97, 98, 0, 7, 7, 7] [99, 100, 0] 4).1 = [97, 98, 99, 0, 7, 7] ∧
    cstring (strlcat [97, 98, 0, 7, 7, 7] [99, 100, 0] 4).1 = [97, 98, 99] ∧
    (strlcat [97, 98, 0, 7, 7, 7] [99, 100, 0] 4).1[4 - 1]? = some 0 :=
  have h := C6_truncates_and_reports [97, 98] [99, 100] [7, 7, 7] [] 4
    (by decide) (by decide) (by decide) (by decide)
  ⟨h.1, by decide, h.2.2.2.2.1, h.2.2.1⟩

/-- C7: with a capacity of 0 `strlcat` writes nothing, the destination
buffer is returned byte for byte as it was, and the value returned is
`len d + len s`, the length the untruncated concatenation would have, as in
the truncating case. -/
theorem C7_zero_capacity_no_write (d s dtail stail : List Nat)
    (hd : ∀ b ∈ d, b ≠ 0) (hs : ∀ b ∈ s, b ≠ 0) :
    (strlcat (d ++ 0 :: dtail) (s ++ 0 :: stail) 0).1 = d ++ 0 :: dtail ∧
    (strlcat (d ++ 0 :: dtail) (s ++ 0 :: stail) 0).2 = d.length + s.length ∧
    (∀ n, (strlcat (d ++ 0 :: dtail) (s ++ 0 :: stail) 0).2 =
      (strlcat (d ++ 0 :: dtail) (s ++ 0 :: stail) n).2) := by
  refine ⟨by simp [strlcat], ?_, ?_⟩
  · simp [strlcat, cstring_append_null d dtail hd, cstring_append_null s stail hs]
  · intro n
    by_cases hn : n = 0 <;> simp [strlcat, hn]

/-- Witness for C7: "ab" and "cd" with a capacity of 0. -/
theorem C7_zero_capacity_no_write_witness :
    (strlcat [97, 98, 0, 7] [99, 100, 0] 0).1 = [97, 98, 0, 7] ∧
    (strlcat [97, 98, 0, 7] [99, 100, 0] 0).2 = 4 :=
  have h := C7_zero_capacity_no_write [97, 98] [99, 100] [7] []
    (by decide) (by decide)
  ⟨h.1, h.2.1⟩

/-- C8: for every capacity `n` and every pair of buffers, each byte of the
destination at an index `i ≥ n` is after the call what it was before. -/
theorem C8_no_write_past_capacity (dst src : List Nat) (n i : Nat)
    (h : n ≤ i) : (strlcat dst src n).1[i]? = dst[i]? := by
  by_cases hn : n = 0
  · simp [strlcat, hn]
  · simp only [strlcat, hn, if_false]
    exact store_getElem?_of_le _ _ _
      (le_trans (strlcat_store_length_le _ n hn) h)

/-- Witness for C8: "ab" and "cdef" in a capacity of 4; the byte at index 5
keeps its value 8. -/
theorem C8_no_write_past_capacity_witness :
    4 ≤ 5 ∧ (strlcat [97, 98, 0, 7, 7, 8] [99, 100, 101, 102, 0] 4).1[5]? =
      [97, 98, 0, 7, 7, 8][5]? :=
  ⟨by decide, C8_no_write_past_capacity [97, 98, 0, 7, 7, 8]
    [99, 100, 101, 102, 0] 4 5 (by decide)⟩

end Strlcat
